import Mathlib

/-!
Verification of `pr_agent/tools/pr_code_suggestions.py` (class `PRCodeSuggestions`).

The Python module is shallowly embedded: every method that can raise is a
function into `Except PyErr _`; `try/except` blocks become a `match` on that
result; Python dict-field access on suggestion records becomes a lookup of an
`Option` field (`none` models an absent key, raising `KeyError`); Python list
indexing gets Python semantics (negative indices count from the end, anything
else raises `IndexError`).

External collaborators (the git hosting provider, the model client, the YAML
loader from `pr_agent.algo.utils`, the configuration object) are not part of
the two source files; following the spec (sections 2, 4.1 and 6) they are
modelled as parameters: the provider as a record of response functions, the
model plus `load_yaml` as the already-parsed value they deliver (`Parsed`,
with a `failure` constructor for the `None` that `load_yaml` reports on
malformed input), the settings as a record of the knobs the module reads.
Strings are modelled over `'\n'`-separated text; HTML serialisation of the
summary table is kept as its structured content (spec section 1 places
comment formatting out of scope).
-/

namespace PrAgent

/-- Python exception classes that the embedded code can raise. -/
inductive PyErr where
  | keyError
  | typeError
  | indexError
  | valueError
deriving DecidableEq

/-- Decidable equality of `Except` results, used to evaluate the embedded
functions on concrete inputs. -/
instance [DecidableEq ε] [DecidableEq α] : DecidableEq (Except ε α) := fun a b =>
  match a, b with
  | .ok x, .ok y =>
    if h : x = y then .isTrue (by rw [h]) else .isFalse (by intro hc; cases hc; exact h rfl)
  | .error e, .error e' =>
    if h : e = e' then .isTrue (by rw [h]) else .isFalse (by intro hc; cases hc; exact h rfl)
  | .ok _, .error _ => .isFalse (by intro hc; cases hc)
  | .error _, .ok _ => .isFalse (by intro hc; cases hc)

/-! ### Python string primitives (over newline-separated text) -/

/-- Python `str.isspace` on a single character (ASCII whitespace). -/
def pyIsSpace (c : Char) : Bool :=
  c = ' ' ∨ c = '\t' ∨ c = '\n' ∨ c = '\r' ∨ c = Char.ofNat 11 ∨ c = Char.ofNat 12

/-- Number of leading whitespace characters, `len(s) - len(s.lstrip())`. -/
def leadingWS (s : String) : Nat :=
  (s.toList.takeWhile pyIsSpace).length

/-- Python `str.strip()` (strip whitespace from both ends). -/
def pyStrip (s : String) : String :=
  String.mk (((s.toList.dropWhile pyIsSpace).reverse.dropWhile pyIsSpace).reverse)

/-- Python `str.rstrip()` (strip trailing whitespace). -/
def pyRstrip (s : String) : String :=
  String.mk ((s.toList.reverse.dropWhile pyIsSpace).reverse)

/-- Python `str.strip(c)` for a single character `c`. -/
def pyStripChar (c : Char) (s : String) : String :=
  String.mk (((s.toList.dropWhile (· = c)).reverse.dropWhile (· = c)).reverse)

/-- Drop trailing newline characters from a character list. -/
def dropTrailingNLs (cs : List Char) : List Char :=
  (cs.reverse.dropWhile (· = '\n')).reverse

/-- Python `s.rstrip('\n')`: drop trailing newline characters only. -/
def rstripNewlines (s : String) : String :=
  String.mk (dropTrailingNLs s.toList)

/-- Split a character list into lines, keeping the terminating `'\n'` on
every line that has one (`str.splitlines(keepends=True)` restricted to
`'\n'` breaks). -/
def splitKeependsAux : List Char → List Char → List (List Char)
  | [], cur => if cur = [] then [] else [cur.reverse]
  | c :: rest, cur =>
    if c = '\n' then (cur.reverse ++ ['\n']) :: splitKeependsAux rest []
    else splitKeependsAux rest (c :: cur)

/-- The keepends lines of a character list. -/
def linesOf (cs : List Char) : List (List Char) :=
  splitKeependsAux cs []

/-- Remove the terminating `'\n'` of a keepends line, when present. -/
def dropOneNL (l : List Char) : List Char :=
  if l.getLast? = some '\n' then l.dropLast else l

/-- Python `str.splitlines()` restricted to `'\n'` line breaks, on
characters: the keepends lines with their terminators removed. -/
def pySplitlinesChars (cs : List Char) : List (List Char) :=
  (linesOf cs).map dropOneNL

/-- Python `str.splitlines()` restricted to `'\n'` line breaks. -/
def pySplitlines (s : String) : List String :=
  (pySplitlinesChars s.toList).map String.mk

/-- Python `'\n'.join`: interleave a newline between consecutive lines. -/
def joinlines : List (List Char) → List Char
  | [] => []
  | [l] => l
  | l :: rest => l ++ '\n' :: joinlines rest

/-- Does a line contain a non-whitespace character (Python
`line.strip()` truthiness, the default predicate of `textwrap.indent`)? -/
def hasNonWS (l : List Char) : Bool :=
  l.any (fun c => ! pyIsSpace c)

/-- Prefix a line when it contains a non-whitespace character. -/
def indentLineIf (pre : List Char) (l : List Char) : List Char :=
  if hasNonWS l then pre ++ l else l

/-- Python's `textwrap.indent(text, pre)` with the default predicate, on
characters: the prefix is added to every keepends line that contains a
non-whitespace character; lines consisting solely of whitespace are left
untouched. -/
def textwrapIndentChars (pre : List Char) (cs : List Char) : List Char :=
  ((linesOf cs).map (indentLineIf pre)).flatten

/-- Python's `textwrap.indent(text, pre)` with the default predicate. -/
def textwrapIndent (pre : String) (text : String) : String :=
  String.mk (textwrapIndentChars pre.toList text.toList)

/-- Python `s.rsplit('.')[-1]`: the part after the last dot, or the whole
string when there is no dot. -/
def lastComponentAfterDot (s : String) : String :=
  (s.splitOn ".").getLastD ""

/-! ### Python list indexing -/

/-- Normalise a Python list index: a non-negative index in range is kept, a
negative index in range counts from the end, anything else is `none`
(`IndexError`). -/
def pyIdx (len : Nat) (i : Int) : Option Nat :=
  if 0 ≤ i ∧ i < (len : Int) then some i.toNat
  else if -(len : Int) ≤ i ∧ i < 0 then some ((len : Int) + i).toNat
  else none

/-- Python `l[i]` (raises `IndexError` when out of range). -/
def pyGet [Inhabited α] (l : List α) (i : Int) : Except PyErr α :=
  match pyIdx l.length i with
  | some j => .ok (l.getD j default)
  | none => .error .indexError

/-- Python `l[i] = v` (raises `IndexError` when out of range). -/
def pySet (l : List α) (i : Int) (v : α) : Except PyErr (List α) :=
  match pyIdx l.length i with
  | some j => .ok (l.set j v)
  | none => .error .indexError

/-- Python `l[:k]` for an arbitrary (possibly negative) stop index `k`. -/
def pySliceTo (l : List α) (k : Int) : List α :=
  if 0 ≤ k then l.take k.toNat else l.take ((l.length : Int) + k).toNat

/-- Python `int(q)`: truncation toward zero of a rational. -/
def pyInt (q : ℚ) : Int :=
  if 0 ≤ q then ⌊q⌋ else ⌈q⌉

/-! ### Data model -/

/-- A suggestion record as parsed from the model's YAML answer.  Each field
is `Option`al: `none` models a record in which the corresponding key is
missing, so that accessing it raises `KeyError`. -/
structure Suggestion where
  relevant_file : Option String
  suggestion_content : Option String
  existing_code : Option String
  improved_code : Option String
  relevant_lines_start : Option Int
  relevant_lines_end : Option Int
  label : Option String
deriving DecidableEq, Inhabited

/-- A suggestion record with every key absent, for building concrete ones. -/
def emptySug : Suggestion :=
  ⟨none, none, none, none, none, none, none⟩

/-- The result dict of the parse step; `code_suggestions = none` models a
dict in which the `'code_suggestions'` key is absent. -/
structure PData where
  code_suggestions : Option (List Suggestion)
deriving DecidableEq, Inhabited

/-- Modelled from the spec: the value `load_yaml` (from
`pr_agent.algo.utils`, not under `src/`) delivers for the model's raw text.
Per spec section 4.1 it returns the parsed YAML-like structure — a list of
records or a dict holding them — and reports a parse failure on malformed
input, which the real helper signals by returning `None` (`failure` here). -/
inductive Parsed where
  | failure
  | list (l : List Suggestion)
  | dict (d : PData)
deriving DecidableEq, Inhabited

/-- Python dict access `d[key]` on an optional field: `KeyError` when the
key is absent. -/
def dictGet (v : Option β) : Except PyErr β :=
  match v with
  | some x => .ok x
  | none => .error .keyError

/-! ### `_prepare_pr_code_suggestions` (lines 121-138) -/

/-- The `remove invalid suggestions` loop of `_prepare_pr_code_suggestions`:
record by record (1-based loop index `i + 1`), fetch `existing_code` and
`improved_code` (raising `KeyError` when missing), keep the record when they
differ, otherwise log the skip.  Returns the kept records in order together
with the 1-based indices of the logged skips. -/
def removeInvalidFrom (i : Nat) : List Suggestion → Except PyErr (List Suggestion × List Nat)
  | [] => .ok ([], [])
  | s :: rest => do
    let ex ← dictGet s.existing_code
    let im ← dictGet s.improved_code
    let (keep, logs) ← removeInvalidFrom (i + 1) rest
    if ex ≠ im then
      .ok (s :: keep, logs)
    else
      .ok (keep, (i + 1) :: logs)

/-- The parse step `_prepare_pr_code_suggestions`: a bare list is wrapped into a dict under
`'code_suggestions'`; a `load_yaml` failure (`None`) makes the subsequent
subscript raise `TypeError`; a dict is read at `'code_suggestions'`
(`KeyError` when absent); then the no-op filter loop runs and the filtered
list is written back under the key. -/
def prepare_pr_code_suggestions (parsed : Parsed) : Except PyErr (PData × List Nat) :=
  match parsed with
  | .failure => .error .typeError
  | .list l => do
    let (keep, logs) ← removeInvalidFrom 0 l
    .ok (⟨some keep⟩, logs)
  | .dict d => do
    let l ← dictGet d.code_suggestions
    let (keep, logs) ← removeInvalidFrom 0 l
    .ok (⟨some keep⟩, logs)

/-! ### `_prepare_prediction_extended` (lines 223-246) -/

/-- The accumulation loop of `_prepare_prediction_extended`: starting from
the empty dict `data = ⟨none⟩`, each chunk's prediction is parsed with
`_prepare_pr_code_suggestions`; when `data` already holds the
`'code_suggestions'` key the per-chunk list (read at the key, `KeyError`
when absent) is appended to it, otherwise `data.update(data_per_chunk)`
installs the chunk's dict.  Skip-log indices are concatenated across
chunks. -/
def extendedGo : List Parsed → PData → List Nat → Except PyErr (PData × List Nat)
  | [], data, logs => .ok (data, logs)
  | p :: rest, data, logs => do
    let (per, plogs) ← prepare_pr_code_suggestions p
    match data.code_suggestions with
    | some existing => do
      let perList ← dictGet per.code_suggestions
      extendedGo rest ⟨some (existing ++ perList)⟩ (logs ++ plogs)
    | none => extendedGo rest per (logs ++ plogs)

/-- The method `_prepare_prediction_extended`: the chunker's diff chunks are each sent
independently through the prompt/model/parse steps — `modelOf` maps a chunk
to the parsed value the model plus `load_yaml` deliver for it — and the
per-chunk results are folded together by `extendedGo`. -/
def prepare_prediction_extended (chunks : List String) (modelOf : String → Parsed) :
    Except PyErr (PData × List Nat) :=
  extendedGo (chunks.map modelOf) ⟨none⟩ []

/-! ### `rank_suggestions` (lines 248-301) -/

/-- Configuration knobs of `pr_code_suggestions` read by the module
(spec section 6: a settings object consumed read-only). -/
structure Settings where
  include_improved_code : Bool
  final_clip_factor : ℚ
  num_code_suggestions : Nat
  num_code_suggestions_per_chunk : Nat
  language_extension_map_org : List (String × List String)

/-- The assignment loop of `rank_suggestions`:
`data_sorted[importance_order - 1] = suggestion_list[suggestion_number - 1]`
for each entry `(suggestion number, importance order)` of the model's
`'Sort Order'` answer, with Python index semantics on both sides.  The
accumulator models Python's `[[]] * len(suggestion_list)` placeholder list:
`none` is the untouched `[]` placeholder, `some s` a written suggestion. -/
def applySortEntries (input : List α) [Inhabited α] :
    List (Int × Int) → List (Option α) → Except PyErr (List (Option α))
  | [], acc => .ok acc
  | (sn, io) :: rest, acc => do
    let v ← pyGet input (sn - 1)
    let acc' ← pySet acc (io - 1) (some v)
    applySortEntries input rest acc'

/-- The body of `rank_suggestions`' `try` block after the second model call:
`resp` stands for the combined outcome of `chat_completion`, `load_yaml` and
the `'Sort Order'` / field accesses (an exception or the list of
`(suggestion number, importance order)` integer pairs); then the assignment
loop runs and, when `final_clip_factor != 1`, the ranked list is clipped to
`int(0.5 + max_len * final_clip_factor)` entries whenever that is strictly
shorter, with `max_len` the maximum of the ranked list's length and the two
suggestion-count settings. -/
def rank_core (st : Settings) (input : List α) [Inhabited α]
    (resp : Except PyErr (List (Int × Int))) : Except PyErr (List (Option α)) := do
  let entries ← resp
  let sorted ← applySortEntries input entries (List.replicate input.length none)
  if st.final_clip_factor ≠ 1 then
    let max_len : Nat := max sorted.length (max st.num_code_suggestions st.num_code_suggestions_per_chunk)
    let new_len : Int := pyInt ((1 : ℚ) / 2 + (max_len : ℚ) * st.final_clip_factor)
    if new_len < (sorted.length : Int) then
      pure (pySliceTo sorted new_len)
    else
      pure sorted
  else
    pure sorted

/-- The method `rank_suggestions`: on any exception inside the `try` block the
`except` branch returns `suggestion_list`, the element-wise copy of the
input, unchanged (injected into the placeholder-carrying element type by
`some`); otherwise the ranked, possibly clipped list is returned. -/
def rank_suggestions (st : Settings) (input : List α) [Inhabited α]
    (resp : Except PyErr (List (Int × Int))) : List (Option α) :=
  match rank_core st input resp with
  | .ok s => s
  | .error _ => input.map some

/-! ### `dedent_code` (lines 191-211) -/

/-- One file of the provider's diff: its path and the full new-side text. -/
structure FileDiff where
  filename : String
  head_file : String
deriving DecidableEq, Inhabited

/-- The lookup inside `dedent_code`'s `try` block: the first diff file whose
stripped filename equals `relevant_file` contributes
`head_file.splitlines()[relevant_lines_start - 1]` (Python indexing, so the
subscript can raise `IndexError`); with no matching file the original line
stays `None`. -/
def findOriginalLine (files : List FileDiff) (relevant_file : String)
    (relevant_lines_start : Int) : Except PyErr (Option String) :=
  match files.find? (fun f => pyStrip f.filename = relevant_file) with
  | none => .ok none
  | some f => do
    let line ← pyGet (pySplitlines f.head_file) (relevant_lines_start - 1)
    .ok (some line)

/-- The method `dedent_code`: inside a `try` that swallows every exception, look up the
original first line; when it is truthy, compare its leading whitespace with
that of the snippet's first line and, only when the difference is strictly
positive, re-indent the snippet by that many spaces with `textwrap.indent`
and strip trailing newlines; in every other case (no match, indexing error,
empty original line, empty snippet, non-positive delta) the snippet is
returned unchanged. -/
def dedent_code (files : List FileDiff) (relevant_file : String)
    (relevant_lines_start : Int) (new_code_snippet : String) : String :=
  match (do
    let origOpt ← findOriginalLine files relevant_file relevant_lines_start
    match origOpt with
    | some orig =>
      if orig ≠ "" then do
        let first ← pyGet (pySplitlines new_code_snippet) 0
        let delta : Int := (leadingWS orig : Int) - (leadingWS first : Int)
        if 0 < delta then
          pure (rstripNewlines
            (textwrapIndent (String.mk (List.replicate delta.toNat ' ')) new_code_snippet))
        else
          pure new_code_snippet
      else
        pure new_code_snippet
    | none => pure new_code_snippet
    : Except PyErr String) with
  | .ok r => r
  | .error _ => new_code_snippet

/-! ### The git-hosting collaborator and the publisher data -/

/-- A provider-created inline review comment, opaque to this module. -/
structure InlineComment where
  id : Nat
deriving DecidableEq, Inhabited

/-- The dict appended to `code_suggestions` in the improved-code branch of
`push_inline_code_suggestions`. -/
structure CSDict where
  body : String
  relevant_file : String
  relevant_lines_start : Int
  relevant_lines_end : Int
deriving DecidableEq, Inhabited

/-- An element of the dynamically-typed `code_suggestions` list collected by
`push_inline_code_suggestions`: a suggestion dict in the improved-code
branch, a provider comment object otherwise. -/
inductive Collected where
  | cs (c : CSDict)
  | inline (c : InlineComment)
deriving DecidableEq, Inhabited

/-- One rendered entry of the aggregated summary table: the fields the
source extracts for a suggestion (stripped path, line range, provider link,
texts, resolved language, gfm capability).  The HTML/Markdown serialisation
around them is out of scope per spec section 1. -/
structure Rendered where
  label : String
  file : String
  lineStart : Int
  lineEnd : Int
  link : String
  content : String
  existing : String
  improved : String
  language : String
  gfm : Bool
deriving DecidableEq, Inhabited

/-- The content of a comment posted through the provider: free text, or the
aggregated summary table grouped by label. -/
inductive CommentBody where
  | text (s : String)
  | summaryTable (groups : List (String × List Rendered))
deriving DecidableEq, Inhabited

/-- Modelled from the spec: the git-hosting collaborator (spec section 6),
a record of response functions — comment posting (which may raise),
batch suggestion/inline publishing reporting success as a boolean, inline
comment creation, capability queries, line links and the diff files. -/
structure GitProvider where
  publish_comment : CommentBody → Except PyErr Unit
  publish_code_suggestions : List Collected → Bool
  publish_inline_comments : List Collected → Bool
  create_inline_comment : String → String → String → Int → Option InlineComment
  is_supported : String → Bool
  get_line_link : String → Int → Int → String
  diff_files : List FileDiff
  get_diff_files : List FileDiff

/-- Python's `self.git_provider.diff_files if self.git_provider.diff_files
else self.git_provider.get_diff_files()` (an empty list is falsy). -/
def effectiveDiffFiles (gp : GitProvider) : List FileDiff :=
  if gp.diff_files ≠ [] then gp.diff_files else gp.get_diff_files

/-! ### `publish_summarizes_suggestions` (lines 303-405) -/

/-- Append a suggestion under its label, keeping the dict's insertion order
of labels and the arrival order inside each label. -/
def addToGroups (gs : List (String × List Suggestion)) (lb : String) (s : Suggestion) :
    List (String × List Suggestion) :=
  match gs with
  | [] => [(lb, [s])]
  | (k, v) :: rest =>
    if k = lb then (k, v ++ [s]) :: rest else (k, v) :: addToGroups rest lb s

/-- The grouping loop of `publish_summarizes_suggestions`:
`label = suggestion['label'].strip().strip("'").strip('"')` (`KeyError` when
the key is missing) and the suggestion is appended under that label. -/
def groupByLabel : List Suggestion → List (String × List Suggestion) →
    Except PyErr (List (String × List Suggestion))
  | [], gs => .ok gs
  | s :: rest, gs => do
    let lb ← dictGet s.label
    let lb := pyStripChar '"' (pyStripChar '\'' (pyStrip lb))
    groupByLabel rest (addToGroups gs lb s)

/-- The setting `language_extension_map_org` reversed into an extension-to-language
map; as in a Python dict, a later insertion for the same extension wins,
which the reversed-list lookup reproduces. -/
def extToLangPairs (m : List (String × List String)) : List (String × String) :=
  m.flatMap (fun p => p.2.map (fun e => (e, p.1)))

/-- Lookup in the extension-to-language dict (last insertion wins). -/
def extToLang (m : List (String × List String)) (ext : String) : Option String :=
  (extToLangPairs m).reverse.lookup ext

/-- One iteration of the inner rendering loop of
`publish_summarizes_suggestions`: field accesses (each raising `KeyError`
when missing), stripping, the provider line link, and the language resolved
from the raw `relevant_file`'s last extension with `"python"` as default.
`insert_br_after_x_chars` only reflows `suggestion_content`; the reflow is
abstracted away with the rest of the serialisation. -/
def renderSuggestion (gp : GitProvider) (st : Settings) (lb : String) (s : Suggestion) :
    Except PyErr Rendered := do
  let rf ← dictGet s.relevant_file
  let rf := pyStrip rf
  let ls ← dictGet s.relevant_lines_start
  let le ← dictGet s.relevant_lines_end
  let link := gp.get_line_link rf ls le
  let content ← dictGet s.suggestion_content
  let content := pyRstrip content
  let ex ← dictGet s.existing_code
  let ex := pyRstrip ex
  let im ← dictGet s.improved_code
  let im := pyRstrip im
  let rawFile ← dictGet s.relevant_file
  let extS := lastComponentAfterDot rawFile
  let language :=
    match extToLang st.language_extension_map_org extS with
    | some lang => if extS ≠ "" then lang else "python"
    | none => "python"
  pure ⟨lb, rf, ls, le, link, content, ex, im, language, gp.is_supported "gfm_markdown"⟩

/-- The outer rendering loop: each label's suggestions in order. -/
def renderGroups (gp : GitProvider) (st : Settings) :
    List (String × List Suggestion) → Except PyErr (List (String × List Rendered))
  | [] => .ok []
  | (lb, ss) :: rest => do
    let rs ← ss.mapM (renderSuggestion gp st lb)
    let tail ← renderGroups gp st rest
    .ok ((lb, rs) :: tail)

/-- The `try` block of `publish_summarizes_suggestions`: read the
`'code_suggestions'` key, group by label, render every suggestion, and post
the aggregated comment through the provider. -/
def publish_summarizes_core (gp : GitProvider) (st : Settings) (data : PData) :
    Except PyErr CommentBody := do
  let suggestions ← dictGet data.code_suggestions
  let groups ← groupByLabel suggestions []
  let rgroups ← renderGroups gp st groups
  let body := CommentBody.summaryTable rgroups
  let _ ← gp.publish_comment body
  pure body

/-- The method `publish_summarizes_suggestions`: the whole body sits in a
`try/except Exception` whose handler only logs, so the method returns
normally in every case — `some body` when the comment was posted, `none`
when the failure was logged. -/
def publish_summarizes_suggestions (gp : GitProvider) (st : Settings) (data : PData) :
    Except PyErr (Option CommentBody) :=
  match publish_summarizes_core gp st data with
  | .ok b => .ok (some b)
  | .error _ => .ok none

/-! ### `push_inline_code_suggestions` (lines 140-189) -/

/-- A call observed at the provider boundary. -/
inductive ProviderCall where
  | publishComment (b : CommentBody)
  | publishCodeSuggestions (l : List Collected)
  | publishInlineComments (l : List Collected)
  | createInlineComment (body : String) (file : String) (pos : Int)
deriving DecidableEq

/-- One iteration of the collection loop of `push_inline_code_suggestions`,
wrapped in the per-item `try/except`: field accesses, dedenting of a
non-empty snippet, then either the suggestion-block dict (improved-code
branch) or a provider inline comment (appended only when the provider
returns one, skipped with a logged error when inline comments are
unsupported).  Yields the collected item, if any, and the provider calls
made on the way. -/
def collectOne (gp : GitProvider) (st : Settings) (d : Suggestion) :
    Option Collected × List ProviderCall :=
  match (do
    let rf ← dictGet d.relevant_file
    let rf := pyStrip rf
    let ls ← dictGet d.relevant_lines_start
    let le ← dictGet d.relevant_lines_end
    let content ← dictGet d.suggestion_content
    let content := pyRstrip content
    let snippetRaw ← dictGet d.improved_code
    let snippet := pyRstrip snippetRaw
    let lb ← dictGet d.label
    let lb := pyStrip lb
    let snippet :=
      if snippet ≠ "" then dedent_code (effectiveDiffFiles gp) rf ls snippet else snippet
    if st.include_improved_code then
      let body := "**Suggestion:** " ++ content ++ " [" ++ lb ++ "]\n```suggestion\n" ++ snippet ++ "\n```"
      pure (some (Collected.cs ⟨body, rf, ls, le⟩), ([] : List ProviderCall))
    else
      if gp.is_supported "create_inline_comment" then
        let body := "**Suggestion:** " ++ content ++ " [" ++ lb ++ "]"
        let c := gp.create_inline_comment body rf "" le
        pure (c.map Collected.inline, [ProviderCall.createInlineComment body rf le])
      else
        pure (none, [])
    : Except PyErr (Option Collected × List ProviderCall)) with
  | .ok r => r
  | .error _ => (none, [])

/-- The collected `code_suggestions` list of `push_inline_code_suggestions`
for the records of `data['code_suggestions']`, in order. -/
def pushCollected (gp : GitProvider) (st : Settings) (l : List Suggestion) : List Collected :=
  (l.map (collectOne gp st)).filterMap (fun r => r.1)

/-- The provider calls made while collecting (inline-comment creations). -/
def pushPreCalls (gp : GitProvider) (st : Settings) (l : List Suggestion) : List ProviderCall :=
  ((l.map (collectOne gp st)).map (fun r => r.2)).flatten

/-- The batch publish outcome: `publish_code_suggestions` over the whole
collected list in the improved-code branch, `publish_inline_comments`
otherwise. -/
def pushBatchOk (gp : GitProvider) (st : Settings) (c : List Collected) : Bool :=
  if st.include_improved_code then gp.publish_code_suggestions c else gp.publish_inline_comments c

/-- The provider call of the batch publish. -/
def pushBatchCall (st : Settings) (c : List Collected) : ProviderCall :=
  if st.include_improved_code then .publishCodeSuggestions c else .publishInlineComments c

/-- The provider call of one item of the individual fallback loop. -/
def pushSingleCall (st : Settings) (c : Collected) : ProviderCall :=
  if st.include_improved_code then .publishCodeSuggestions [c] else .publishInlineComments [c]

/-- The method `push_inline_code_suggestions`, returning the ordered trace of provider
calls: read `data['code_suggestions']` (`KeyError` when absent, uncaught);
with an empty list publish the `'No suggestions found'` comment and return
its outcome; otherwise collect the items (per-item failures swallowed),
batch-publish them, and when the batch reports failure fall back to
publishing each collected item individually, ignoring per-item results. -/
def push_inline_code_suggestions (gp : GitProvider) (st : Settings) (data : PData) :
    Except PyErr (List ProviderCall) := do
  let l ← dictGet data.code_suggestions
  if l = [] then
    match gp.publish_comment (.text "No suggestions found to improve this PR.") with
    | .ok _ => pure [ProviderCall.publishComment (.text "No suggestions found to improve this PR.")]
    | .error e => throw e
  else
    let collected := pushCollected gp st l
    let calls := pushPreCalls gp st l
    if pushBatchOk gp st collected then
      pure (calls ++ [pushBatchCall st collected])
    else
      pure (calls ++ [pushBatchCall st collected] ++ collected.map (pushSingleCall st))

/-! ### `run` (lines 58-91)

The method body as shipped assigns a hard-coded `data` literal of seven
suggestion records and immediately publishes it with
`publish_summarizes_suggestions`; the whole fetch/render/infer/parse/rank/
publish pipeline is commented out.  The seven records are transcribed
below verbatim. -/

/-- First canned record of `run`'s hard-coded `data` literal. -/
def cannedSug1 : Suggestion :=
  ⟨some "pr_agent/tools/pr_update_changelog.py",
   some "The `get_git_provider()` function is called twice in the `__init__` method of `PRUpdateChangelog` class. It would be more efficient to call this function once and store the result in a variable, then use this variable in the conditional statements.\n",
   some "if isinstance(self.git_provider, GithubProvider):\n    self.git_provider = get_git_provider()(pr_url)\nelif isinstance(self.git_provider, GitLabProvider):\n    self.git_provider = get_git_provider()(pr_url, incremental=True)\n",
   some "git_provider = get_git_provider()\nif isinstance(self.git_provider, GithubProvider):\n    self.git_provider = git_provider(pr_url)\nelif isinstance(self.git_provider, GitLabProvider):\n    self.git_provider = git_provider(pr_url, incremental=True)\n",
   some 22, some 25, some "performance"⟩

/-- Second canned record of `run`'s hard-coded `data` literal. -/
def cannedSug2 : Suggestion :=
  ⟨some "pr_agent/tools/pr_update_changelog.py",
   some "The `run` method of `PRUpdateChangelog` class has duplicate code for `GithubProvider` and `GitLabProvider`. This can be refactored to a separate method that accepts a `git_provider` as an argument, reducing code duplication.\n",
   some "if isinstance(self.git_provider, GithubProvider):\n    if get_settings().config.publish_output:\n        self.git_provider.publish_comment(\"Preparing changelog updates...\", is_temporary=True)\nelif isinstance(self.git_provider, GitLabProvider):\n    # Add code for preparing changelog updates for GitLabProvider\n    pass\n",
   some "def prepare_changelog_updates(self, git_provider):\n    if get_settings().config.publish_output:\n        git_provider.publish_comment(\"Preparing changelog updates...\", is_temporary=True)\n\nif isinstance(self.git_provider, GithubProvider):\n    self.prepare_changelog_updates(self.git_provider)\nelif isinstance(self.git_provider, GitLabProvider):\n    # Add code for preparing changelog updates for GitLabProvider\n    pass\n",
   some 55, some 60, some "maintainability"⟩

/-- Third canned record of `run`'s hard-coded `data` literal. -/
def cannedSug3 : Suggestion :=
  ⟨some "pr_agent/tools/pr_update_changelog.py",
   some "The `assert` statement in the `run` method of `PRUpdateChangelog` class can be replaced with a more descriptive exception. This would provide a more meaningful error message if the condition is not met.\n",
   some "assert type(self.git_provider) in [GithubProvider, GitLabProvider], \"Currently only Github and GitLab are supported\"\n",
   some "if type(self.git_provider) not in [GithubProvider, GitLabProvider]:\n    raise ValueError(\"Unsupported git provider. Currently only Github and GitLab are supported.\")\n",
   some 52, some 52, some "enhancement"⟩

/-- Fourth canned record of `run`'s hard-coded `data` literal. -/
def cannedSug4 : Suggestion :=
  ⟨some "pr_agent/tools/pr_update_changelog.py",
   some "The `CHANGELOG_LINES` constant is defined at the global scope but is only used within the `PRUpdateChangelog` class. It would be more appropriate to define it as a class attribute.\n",
   some "CHANGELOG_LINES = 25\n",
   some "class PRUpdateChangelog:\n    CHANGELOG_LINES = 25\n    ...\n",
   some 16, some 16, some "best practice"⟩

/-- Fifth canned record of `run`'s hard-coded `data` literal. -/
def cannedSug5 : Suggestion :=
  ⟨some ".github/ISSUE_TEMPLATE/sweep-bugfix.yml",
   some "The `id` attribute for the second textarea is `description2`, which is not very descriptive. Consider using a more meaningful `id`.\n",
   some "id: description2\n",
   some "id: additional_details\n",
   some 13, some 13, some "enhancement"⟩

/-- Sixth canned record of `run`'s hard-coded `data` literal. -/
def cannedSug6 : Suggestion :=
  ⟨some ".github/ISSUE_TEMPLATE/sweep-feature.yml",
   some "The `description` attribute for the textarea is \"More details for Sweep\", which is not very descriptive. Consider providing a more specific description.\n",
   some "description: More details for Sweep\n",
   some "description: Please provide more details about the feature you want to test.\n",
   some 10, some 10, some "enhancement"⟩

/-- Seventh canned record of `run`'s hard-coded `data` literal. -/
def cannedSug7 : Suggestion :=
  ⟨some ".github/ISSUE_TEMPLATE/sweep-refactor.yml",
   some "The `placeholder` attribute for the textarea is \"We are migrating this function to ... version because ...\", which is not very clear. Consider providing a more specific placeholder.\n",
   some "placeholder: We are migrating this function to ... version because ...\n",
   some "placeholder: We are migrating this function to version 2.0 because it provides better performance.\n",
   some 11, some 11, some "enhancement"⟩

/-- The hard-coded `data` dict assigned at the top of `run`. -/
def cannedData : PData :=
  ⟨some [cannedSug1, cannedSug2, cannedSug3, cannedSug4, cannedSug5, cannedSug6, cannedSug7]⟩

/-- The method `run` as shipped: independent of the PR diff and of whatever the model
would answer (`modelResponse` is the canned response a mock harness would
feed it), it publishes the hard-coded seven-record `data` through
`publish_summarizes_suggestions`. -/
def run (gp : GitProvider) (st : Settings) (_modelResponse : String) :
    Except PyErr (Option CommentBody) :=
  publish_summarizes_suggestions gp st cannedData

/-- How many suggestions a `run` outcome published: the total number of
entries of the posted summary table, `0` when no comment was posted. -/
def countPublished (r : Except PyErr (Option CommentBody)) : Option Nat :=
  match r with
  | .ok (some (.summaryTable gs)) => some ((gs.map (fun g => g.2.length)).sum)
  | .ok (some (.text _)) => some 0
  | .ok none => some 0
  | .error _ => none

/-- A provider whose posting always succeeds, for concrete evaluations. -/
def trivialGp : GitProvider :=
  ⟨fun _ => .ok (), fun _ => true, fun _ => true, fun _ _ _ _ => some ⟨0⟩,
   fun _ => true, fun _ _ _ => "", [], []⟩

/-- A provider whose batch and individual publishes always report failure. -/
def failingGp : GitProvider :=
  ⟨fun _ => .ok (), fun _ => false, fun _ => false, fun _ _ _ _ => some ⟨0⟩,
   fun _ => true, fun _ _ _ => "", [], []⟩

/-- A plain settings record for concrete evaluations. -/
def demoSettings : Settings :=
  ⟨true, 1, 4, 4, []⟩

/-! ## Theorems -/

/-- Reduction of a successful bind in the `Except` monad. -/
@[simp] theorem except_ok_bind (a : α) (f : α → Except ε β) :
    (Except.ok a >>= f) = f a := rfl

/-- Reduction of a failing bind in the `Except` monad. -/
@[simp] theorem except_error_bind (e : ε) (f : α → Except ε β) :
    ((Except.error e : Except ε α) >>= f) = Except.error e := rfl

/-- Reduction of `pure` in the `Except` monad is `Except.ok`. -/
@[simp] theorem except_pure_eq (a : α) : (pure a : Except ε α) = Except.ok a := rfl

/-! ### Claim C1 -/

/-- The filter loop on records that carry both code fields: it keeps
exactly the records whose two code texts differ, in order, and logs the
1-based loop index of every skipped record. -/
theorem removeInvalidFrom_ok (i : Nat) (l : List Suggestion)
    (h : ∀ s ∈ l, s.existing_code.isSome ∧ s.improved_code.isSome) :
    removeInvalidFrom i l =
      .ok (l.filter (fun s => decide (s.existing_code ≠ s.improved_code)),
        ((List.enumFrom i l).filter
          (fun p => decide (p.2.existing_code = p.2.improved_code))).map (fun p => p.1 + 1)) := by
  induction l generalizing i with
  | nil => rfl
  | cons s rest ih =>
    obtain ⟨hex, him⟩ := h s (List.mem_cons_self _ _)
    obtain ⟨ex, hex⟩ := Option.isSome_iff_exists.mp hex
    obtain ⟨im, him⟩ := Option.isSome_iff_exists.mp him
    have hrest := ih (i + 1) (fun t ht => h t (List.mem_cons_of_mem _ ht))
    by_cases hne : ex = im
    · simp [removeInvalidFrom, dictGet, hex, him, hrest, hne, List.filter, List.enumFrom]
    · simp [removeInvalidFrom, dictGet, hex, him, hrest, hne, List.filter, List.enumFrom]

/-- Claim C1: for every parsed model response (a bare record list or a dict
holding one under `'code_suggestions'`) whose records all carry an
`existing_code` and an `improved_code` field, `_prepare_pr_code_suggestions`
returns a dict whose `'code_suggestions'` list contains exactly the input
records with `existing_code` different from `improved_code`, in their
original order; every record whose existing code equals its improved code is
dropped and its skip is logged (by its 1-based position). -/
theorem prepare_filters_noop (parsed : Parsed) (l : List Suggestion)
    (hshape : parsed = .list l ∨ parsed = .dict ⟨some l⟩)
    (hfields : ∀ s ∈ l, s.existing_code.isSome ∧ s.improved_code.isSome) :
    prepare_pr_code_suggestions parsed =
      .ok (⟨some (l.filter (fun s => decide (s.existing_code ≠ s.improved_code)))⟩,
        ((List.enumFrom 0 l).filter
          (fun p => decide (p.2.existing_code = p.2.improved_code))).map (fun p => p.1 + 1)) := by
  rcases hshape with h | h <;> subst h <;>
    simp [prepare_pr_code_suggestions, dictGet, removeInvalidFrom_ok 0 l hfields]

/-- A record whose improved code differs from its existing code. -/
def demoKeep : Suggestion :=
  { emptySug with existing_code := some "a = 1", improved_code := some "a = 2" }

/-- A no-op record: existing and improved code coincide. -/
def demoDrop : Suggestion :=
  { emptySug with existing_code := some "b = 1", improved_code := some "b = 1" }

/-- Witness for claim C1 at a concrete two-record response: the no-op
second record is dropped and logged, the first survives. -/
theorem prepare_filters_noop_witness :
    prepare_pr_code_suggestions (.dict ⟨some [demoKeep, demoDrop]⟩) =
      .ok (⟨some [demoKeep]⟩, [2]) :=
  (prepare_filters_noop (.dict ⟨some [demoKeep, demoDrop]⟩) [demoKeep, demoDrop]
    (Or.inr rfl) (by decide)).trans (by decide)

/-! ### Claim C2 -/

/-- Claim C2 counterexample: on malformed raw text `load_yaml` reports a
failure (`None`), and the parse step then raises an uncaught `TypeError`
from subscripting it — it does not return an empty suggestion result. -/
theorem prepare_malformed_raises_cex :
    prepare_pr_code_suggestions Parsed.failure = .error .typeError := rfl

/-- A malformed model response in the sense of claim C2: raw text that does
not parse into the expected structure under the known key (a `load_yaml`
failure or a dict without `'code_suggestions'`), or a record list with a
record missing a required code field. -/
def Malformed (p : Parsed) : Prop :=
  p = .failure ∨
  (∃ d, p = .dict d ∧ d.code_suggestions = none) ∨
  (∃ l, (p = .list l ∨ p = .dict ⟨some l⟩) ∧
    ∃ s ∈ l, s.existing_code = none ∨ s.improved_code = none)

/-- A record missing a required code field makes the filter loop raise
`KeyError` when it reaches the record. -/
theorem removeInvalidFrom_err (i : Nat) (l : List Suggestion)
    (h : ∃ s ∈ l, s.existing_code = none ∨ s.improved_code = none) :
    ∃ e, removeInvalidFrom i l = .error e := by
  induction l generalizing i with
  | nil => simp at h
  | cons s rest ih =>
    cases hex : s.existing_code with
    | none => exact ⟨.keyError, by simp [removeInvalidFrom, hex, dictGet]⟩
    | some ex =>
      cases him : s.improved_code with
      | none => exact ⟨.keyError, by simp [removeInvalidFrom, hex, him, dictGet]⟩
      | some im =>
        obtain ⟨t, ht, hbad⟩ := h
        rcases List.mem_cons.mp ht with rfl | ht
        · rcases hbad with h1 | h1 <;> simp [hex, him] at h1
        · obtain ⟨e, he⟩ := ih (i + 1) ⟨t, ht, hbad⟩
          exact ⟨e, by simp [removeInvalidFrom, hex, him, dictGet, he]⟩

/-- Claim C2 (amended): for every malformed model response — unparseable
raw text, a dict without the known key, or records missing required fields —
the parse step `_prepare_pr_code_suggestions` raises an uncaught exception
(`TypeError` or `KeyError`); it never returns an empty suggestion result.
The failure only stops being fatal in callers that catch broadly. -/
theorem prepare_malformed_raises (p : Parsed) (h : Malformed p) :
    ∃ e, prepare_pr_code_suggestions p = .error e := by
  rcases h with h | ⟨d, rfl, hd⟩ | ⟨l, hshape, hbad⟩
  · exact ⟨.typeError, by subst h; rfl⟩
  · exact ⟨.keyError, by simp [prepare_pr_code_suggestions, hd, dictGet]⟩
  · obtain ⟨e, he⟩ := removeInvalidFrom_err 0 l hbad
    rcases hshape with rfl | rfl
    · exact ⟨e, by simp [prepare_pr_code_suggestions, he]⟩
    · exact ⟨e, by simp [prepare_pr_code_suggestions, dictGet, he]⟩

/-- Witness for the amended claim C2 at the concrete malformed response:
unparseable raw text raises. -/
theorem prepare_malformed_raises_witness :
    ∃ e, prepare_pr_code_suggestions Parsed.failure = .error e :=
  prepare_malformed_raises Parsed.failure (Or.inl rfl)

/-! ### Claim C3 -/

/-- Claim C3 finding: the shipped `run` ignores the model response
entirely — the pipeline is commented out — and publishes the hard-coded
seven-record canned table, so the two-suggestion scenario of the claim
(one no-op, one real) can never yield exactly one published suggestion:
whatever the canned model response says, seven suggestions are published,
and seven is not one. -/
theorem run_publishes_seven_ignoring_model (response : String) :
    countPublished (run trivialGp demoSettings response) = some 7 ∧ 7 ≠ 1 := by
  exact ⟨rfl, by decide⟩

/-! ### Claim C4 -/

/-- Claim C4: for every non-empty collected suggestion list, when the batch
publish call (`publish_code_suggestions` or `publish_inline_comments` over
the whole list) reports failure, `push_inline_code_suggestions` goes on to
attempt every collected item individually — the trace ends with one
single-item publish call per collected item, in order, and since the
per-item boolean results are ignored, a failing item never prevents the
remaining items from being attempted. -/
theorem push_batch_failure_attempts_each (gp : GitProvider) (st : Settings)
    (l : List Suggestion)
    (hne : pushCollected gp st l ≠ [])
    (hfail : pushBatchOk gp st (pushCollected gp st l) = false) :
    push_inline_code_suggestions gp st ⟨some l⟩ =
      .ok (pushPreCalls gp st l ++ [pushBatchCall st (pushCollected gp st l)] ++
        (pushCollected gp st l).map (pushSingleCall st)) := by
  have hl : l ≠ [] := by
    intro h
    rw [h] at hne
    exact hne rfl
  simp [push_inline_code_suggestions, dictGet, hl, hfail]

/-- A complete record for exercising the publisher. -/
def demoFull1 : Suggestion :=
  ⟨some "a.py", some "use x", some "x = 1", some "x = 2", some 1, some 2, some "bug"⟩

/-- A second complete record for exercising the publisher. -/
def demoFull2 : Suggestion :=
  ⟨some "b.py", some "use y", some "y = 1", some "y = 2", some 3, some 4, some "perf"⟩

/-- Witness for claim C4: with a provider whose publishes always report
failure and two collected items, the trace holds the batch call followed by
one individual call per item. -/
theorem push_batch_failure_attempts_each_witness :
    push_inline_code_suggestions failingGp demoSettings ⟨some [demoFull1, demoFull2]⟩ =
      .ok (pushPreCalls failingGp demoSettings [demoFull1, demoFull2] ++
        [pushBatchCall demoSettings (pushCollected failingGp demoSettings [demoFull1, demoFull2])] ++
        (pushCollected failingGp demoSettings [demoFull1, demoFull2]).map
          (pushSingleCall demoSettings)) :=
  push_batch_failure_attempts_each failingGp demoSettings [demoFull1, demoFull2]
    (by decide) (by decide)

/-! ### Claim C5 -/

/-- Claim C5 counterexample: for the empty chunk list the returned dict is
the untouched `data = {}`, which has no `'code_suggestions'` key at all —
it is not a dict whose `'code_suggestions'` list equals the (empty)
concatenation of the per-chunk lists. -/
theorem prepare_prediction_extended_empty_cex :
    prepare_prediction_extended [] (fun _ => Parsed.failure) = .ok (⟨none⟩, []) ∧
      (⟨none⟩ : PData) ≠ ⟨some []⟩ := by
  exact ⟨rfl, by decide⟩

/-- The accumulation loop after the first chunk: once `data` holds the key,
every further chunk's list is appended in order. -/
theorem extendedGo_append (preds : List Parsed) (ls : List (List Suggestion))
    (hf : List.Forall₂
      (fun p lsug => ∃ logs, prepare_pr_code_suggestions p = .ok (⟨some lsug⟩, logs))
      preds ls) :
    ∀ acc logs0, ∃ logs,
      extendedGo preds ⟨some acc⟩ logs0 = .ok (⟨some (acc ++ ls.flatten)⟩, logs) := by
  induction hf with
  | nil => exact fun acc logs0 => ⟨logs0, by simp [extendedGo]⟩
  | @cons p lsug preds' ls' hpl hrest ih =>
    intro acc logs0
    obtain ⟨plogs, hp⟩ := hpl
    obtain ⟨logs, hgo⟩ := ih (acc ++ lsug) (logs0 ++ plogs)
    refine ⟨logs, ?_⟩
    simp only [extendedGo, hp, except_ok_bind, dictGet]
    rw [hgo]
    simp [List.append_assoc]

/-- Claim C5 (amended): in extended mode, for every NON-EMPTY list of diff
chunks whose per-chunk prompt-model-parse steps each succeed with a parsed
(non-no-op) suggestion list, `_prepare_prediction_extended` returns a dict
whose `'code_suggestions'` list is the concatenation, in chunk order, of the
per-chunk lists, each chunk processed independently through the pipeline.
(With zero chunks the returned dict lacks the key instead.) -/
theorem prepare_prediction_extended_concat (chunks : List String)
    (modelOf : String → Parsed) (ls : List (List Suggestion))
    (hne : chunks ≠ [])
    (hf : List.Forall₂
      (fun c lsug => ∃ logs, prepare_pr_code_suggestions (modelOf c) = .ok (⟨some lsug⟩, logs))
      chunks ls) :
    ∃ logs, prepare_prediction_extended chunks modelOf = .ok (⟨some ls.flatten⟩, logs) := by
  cases hf with
  | nil => exact absurd rfl hne
  | @cons c lsug chunks' ls' hpl hrest =>
    obtain ⟨plogs, hp⟩ := hpl
    have hrest' : List.Forall₂
        (fun p lsug => ∃ logs, prepare_pr_code_suggestions p = .ok (⟨some lsug⟩, logs))
        (chunks'.map modelOf) ls' := List.forall₂_map_left_iff.mpr hrest
    obtain ⟨logs, hgo⟩ := extendedGo_append (chunks'.map modelOf) ls' hrest' lsug plogs
    refine ⟨logs, ?_⟩
    simp only [prepare_prediction_extended, List.map_cons, extendedGo, hp, except_ok_bind]
    simpa using hgo

/-- Witness for the amended claim C5: one chunk whose parse yields one
record concatenates to exactly that record. -/
theorem prepare_prediction_extended_concat_witness :
    ∃ logs, prepare_prediction_extended ["chunk"] (fun _ => .dict ⟨some [demoKeep]⟩) =
      .ok (⟨some [demoKeep]⟩, logs) := by
  have h := prepare_prediction_extended_concat ["chunk"] (fun _ => .dict ⟨some [demoKeep]⟩)
    [[demoKeep]] (by decide) (List.Forall₂.cons ⟨[], by decide⟩ List.Forall₂.nil)
  simpa using h

/-! ### Claim C6 -/

/-- Claim C6: for every input list of suggestions, if any step of ranking
fails — the model call, parsing the sort-order response, or applying its
indices, i.e. whenever the `try` block's computation raises —
`rank_suggestions` returns the input suggestions unchanged, in their
original, unranked order (injected by `some` into the element type that
carries Python's `[[]]*n` placeholder). -/
theorem rank_suggestions_fallback {α : Type} [Inhabited α] (st : Settings) (input : List α)
    (resp : Except PyErr (List (Int × Int))) (e : PyErr)
    (h : rank_core st input resp = .error e) :
    rank_suggestions st input resp = input.map some := by
  simp [rank_suggestions, h]

/-- Witness for claim C6: a failing model call leaves the two suggestions
as they were. -/
theorem rank_suggestions_fallback_witness :
    rank_suggestions demoSettings ([10, 20] : List Nat) (.error .keyError) =
      [some 10, some 20] :=
  rank_suggestions_fallback demoSettings [10, 20] (.error .keyError) .keyError rfl

/-! ### Claim C7 -/

/-- Claim C7: for every input data dict and every provider behaviour,
`publish_summarizes_suggestions` never raises — every exception thrown
while formatting the aggregated comment or while posting it is caught by
the method's `try/except`, which logs and returns normally. -/
theorem publish_summarizes_never_raises (gp : GitProvider) (st : Settings) (data : PData) :
    ∃ r, publish_summarizes_suggestions gp st data = .ok r := by
  unfold publish_summarizes_suggestions
  cases publish_summarizes_core gp st data with
  | ok b => exact ⟨some b, rfl⟩
  | error e => exact ⟨none, rfl⟩

/-! ### Claim C9 -/

/-- Truncation toward zero of a non-negative rational is non-negative. -/
theorem pyInt_nonneg {q : ℚ} (h : 0 ≤ q) : 0 ≤ pyInt q := by
  simp only [pyInt, if_pos h]
  exact Int.le_floor.mpr (by exact_mod_cast h)

/-- A Python slice `l[:k]` with non-negative `k` is a `take`. -/
theorem pySliceTo_nonneg {α : Type} (l : List α) {k : Int} (h : 0 ≤ k) :
    pySliceTo l k = l.take k.toNat := by
  simp [pySliceTo, h]

/-- Claim C9: when `final_clip_factor` (a non-negative configuration
fraction) equals 1, `rank_suggestions` never truncates the ranked list;
when it differs from 1, truncation keeps the first
`int(0.5 + max_len * final_clip_factor)` entries, where `max_len` is the
maximum of the ranked list's length, `num_code_suggestions` and
`num_code_suggestions_per_chunk`, and it is applied only when that computed
length is strictly smaller than the ranked list's length — so the list is
never padded or lengthened. -/
theorem rank_suggestions_clip {α : Type} [Inhabited α] (st : Settings) (input : List α)
    (entries : List (Int × Int)) (ranked : List (Option α))
    (hfac : 0 ≤ st.final_clip_factor)
    (hap : applySortEntries input entries (List.replicate input.length none) = .ok ranked) :
    rank_suggestions st input (.ok entries) =
      (if st.final_clip_factor ≠ 1 then
        (if pyInt ((1 : ℚ) / 2 +
            ((max ranked.length (max st.num_code_suggestions st.num_code_suggestions_per_chunk) : Nat) : ℚ) *
              st.final_clip_factor) < (ranked.length : Int) then
          ranked.take (pyInt ((1 : ℚ) / 2 +
            ((max ranked.length (max st.num_code_suggestions st.num_code_suggestions_per_chunk) : Nat) : ℚ) *
              st.final_clip_factor)).toNat
         else ranked)
       else ranked) ∧
    (rank_suggestions st input (.ok entries)).length ≤ ranked.length := by
  have hq : 0 ≤ (1 : ℚ) / 2 +
      ((max ranked.length (max st.num_code_suggestions st.num_code_suggestions_per_chunk) : Nat) : ℚ) *
        st.final_clip_factor := by
    have hmul : (0 : ℚ) ≤
        ((max ranked.length (max st.num_code_suggestions st.num_code_suggestions_per_chunk) : Nat) : ℚ) *
          st.final_clip_factor :=
      mul_nonneg (Nat.cast_nonneg _) hfac
    linarith
  have hk0 := pyInt_nonneg hq
  have hcore : rank_core st input (.ok entries) =
      .ok (if st.final_clip_factor ≠ 1 then
        (if pyInt ((1 : ℚ) / 2 +
            ((max ranked.length (max st.num_code_suggestions st.num_code_suggestions_per_chunk) : Nat) : ℚ) *
              st.final_clip_factor) < (ranked.length : Int) then
          ranked.take (pyInt ((1 : ℚ) / 2 +
            ((max ranked.length (max st.num_code_suggestions st.num_code_suggestions_per_chunk) : Nat) : ℚ) *
              st.final_clip_factor)).toNat
         else ranked)
       else ranked) := by
    unfold rank_core
    simp only [except_ok_bind, hap]
    by_cases h1 : st.final_clip_factor ≠ 1
    · rw [if_pos h1, if_pos h1]
      by_cases hlt : pyInt ((1 : ℚ) / 2 +
          ((max ranked.length (max st.num_code_suggestions st.num_code_suggestions_per_chunk) : Nat) : ℚ) *
            st.final_clip_factor) < (ranked.length : Int)
      · rw [if_pos hlt, if_pos hlt, pySliceTo_nonneg _ hk0]
        rfl
      · rw [if_neg hlt, if_neg hlt]
        rfl
    · rw [if_neg h1, if_neg h1]
      rfl
  have hmain : rank_suggestions st input (.ok entries) =
      (if st.final_clip_factor ≠ 1 then
        (if pyInt ((1 : ℚ) / 2 +
            ((max ranked.length (max st.num_code_suggestions st.num_code_suggestions_per_chunk) : Nat) : ℚ) *
              st.final_clip_factor) < (ranked.length : Int) then
          ranked.take (pyInt ((1 : ℚ) / 2 +
            ((max ranked.length (max st.num_code_suggestions st.num_code_suggestions_per_chunk) : Nat) : ℚ) *
              st.final_clip_factor)).toNat
         else ranked)
       else ranked) := by
    unfold rank_suggestions
    rw [hcore]
  refine ⟨hmain, ?_⟩
  rw [hmain]
  by_cases h1 : st.final_clip_factor ≠ 1
  · rw [if_pos h1]
    by_cases hlt : pyInt ((1 : ℚ) / 2 +
        ((max ranked.length (max st.num_code_suggestions st.num_code_suggestions_per_chunk) : Nat) : ℚ) *
          st.final_clip_factor) < (ranked.length : Int)
    · rw [if_pos hlt, List.length_take]
      exact min_le_right _ _
    · rw [if_neg hlt]
  · rw [if_neg h1]

/-- Witness for claim C9: with clip factor 1/2 over four ranked
suggestions, the first `int(0.5 + 4 * 0.5) = 2` entries are kept. -/
theorem rank_suggestions_clip_witness :
    rank_suggestions (⟨true, 1 / 2, 0, 0, []⟩ : Settings) ([10, 20, 30, 40] : List Nat)
      (.ok [(1, 1), (2, 2), (3, 3), (4, 4)]) = [some 10, some 20] := by
  have h := (rank_suggestions_clip (⟨true, 1 / 2, 0, 0, []⟩ : Settings) [10, 20, 30, 40]
    [(1, 1), (2, 2), (3, 3), (4, 4)] [some 10, some 20, some 30, some 40]
    (by norm_num) (by decide)).1
  rw [h]
  norm_num [pyInt, List.take]

/-! ### Claim C8 -/

/-- A normalised Python index is in range. -/
theorem pyIdx_some_lt {len : Nat} {i : Int} {j : Nat} (h : pyIdx len i = some j) : j < len := by
  unfold pyIdx at h
  split at h
  · next hc =>
    injection h with h'
    omega
  · split at h
    · next hc =>
      injection h with h'
      omega
    · exact absurd h (by simp)

/-- For a 1-based position `k` within range, the Python index `k - 1`
normalises without wrap-around. -/
theorem pyIdx_one_based {len : Nat} {k : Int} (h1 : 1 ≤ k) (h2 : k ≤ (len : Int)) :
    pyIdx len (k - 1) = some (k - 1).toNat := by
  unfold pyIdx
  rw [if_pos ⟨by omega, by omega⟩]

/-- Reading `l[k - 1]` for a 1-based in-range `k` succeeds. -/
theorem pyGet_one_based {α : Type} [Inhabited α] (l : List α) {k : Int}
    (h1 : 1 ≤ k) (h2 : k ≤ (l.length : Int)) :
    pyGet l (k - 1) = .ok (l.getD (k - 1).toNat default) := by
  simp [pyGet, pyIdx_one_based h1 h2]

/-- Writing `l[k - 1] = v` for a 1-based in-range `k` succeeds. -/
theorem pySet_one_based {α : Type} (l : List α) {k : Int}
    (h1 : 1 ≤ k) (h2 : k ≤ (l.length : Int)) (v : α) :
    pySet l (k - 1) v = .ok (l.set (k - 1).toNat v) := by
  simp [pySet, pyIdx_one_based h1 h2]

/-- Reading with `getD` after `set` at a different position is unchanged. -/
theorem getD_set_ne {α : Type} (l : List α) (i j : Nat) (hne : i ≠ j) (v d : α) :
    (l.set i v).getD j d = l.getD j d := by
  induction l generalizing i j with
  | nil => rfl
  | cons a t ih =>
    cases i with
    | zero =>
      cases j with
      | zero => exact absurd rfl hne
      | succ j => simp [List.set]
    | succ i =>
      cases j with
      | zero => simp [List.set]
      | succ j => simpa [List.set] using ih i j (by omega)

/-- Setting an in-range position exchanges the old element for the new one
at the multiset level. -/
theorem toMultiset_set {α : Type} (l : List α) (j : Nat) (hj : j < l.length) (v d : α) :
    ((l.set j v : List α) : Multiset α) + {l.getD j d} = (l : Multiset α) + {v} := by
  induction l generalizing j with
  | nil => simp at hj
  | cons a t ih =>
    cases j with
    | zero =>
      have hsw : ∀ (x y : α) (m : Multiset α), (x ::ₘ m) + {y} = (y ::ₘ m) + {x} := by
        intro x y m
        rw [add_comm, Multiset.singleton_add, add_comm, Multiset.singleton_add,
          Multiset.cons_swap]
      simpa [List.set, ← Multiset.cons_coe] using hsw v a (↑t)
    | succ j =>
      have hj' : j < t.length := by simpa using hj
      calc ((a :: t.set j v : List α) : Multiset α) + {t.getD j d}
          = a ::ₘ (((t.set j v : List α) : Multiset α) + {t.getD j d}) := by
            rw [← Multiset.cons_coe, Multiset.cons_add]
        _ = a ::ₘ ((t : Multiset α) + {v}) := by rw [ih j hj']
        _ = ((a :: t : List α) : Multiset α) + {v} := by
            rw [← Multiset.cons_coe, Multiset.cons_add]

/-- The assignment loop succeeds and, at the multiset level, exchanges the
overwritten accumulator cells for the selected input suggestions, provided
every entry's two indices are 1-based in range and the target positions are
pairwise distinct. -/
theorem applySortEntries_spec {α : Type} [Inhabited α] (input : List α) :
    ∀ (entries : List (Int × Int)) (acc : List (Option α)),
      (∀ e ∈ entries, 1 ≤ e.1 ∧ e.1 ≤ (input.length : Int) ∧
        1 ≤ e.2 ∧ e.2 ≤ (acc.length : Int)) →
      (entries.map Prod.snd).Nodup →
      ∃ r, applySortEntries input entries acc = .ok r ∧ r.length = acc.length ∧
        ((r : Multiset (Option α)) +
            ↑(entries.map (fun e => acc.getD (e.2 - 1).toNat none))) =
          ((acc : Multiset (Option α)) +
            ↑(entries.map (fun e => some (input.getD (e.1 - 1).toNat default)))) := by
  intro entries
  induction entries with
  | nil =>
    intro acc _ _
    exact ⟨acc, rfl, rfl, by simp⟩
  | cons e rest ih =>
    intro acc hb hnd
    obtain ⟨sn, io⟩ := e
    obtain ⟨h1, h2, h3, h4⟩ := hb (sn, io) (List.mem_cons_self _ _)
    have hjlt : (io - 1).toNat < acc.length := by omega
    have hstep : applySortEntries input ((sn, io) :: rest) acc =
        applySortEntries input rest (acc.set (io - 1).toNat (some (input.getD (sn - 1).toNat default))) := by
      simp [applySortEntries, pyGet_one_based input h1 h2, pySet_one_based acc h3 h4]
    have hio_notin : io ∉ rest.map Prod.snd := (List.nodup_cons.mp hnd).1
    have hb' : ∀ e ∈ rest, 1 ≤ e.1 ∧ e.1 ≤ (input.length : Int) ∧ 1 ≤ e.2 ∧
        e.2 ≤ (((acc.set (io - 1).toNat (some (input.getD (sn - 1).toNat default))).length : Nat) : Int) := by
      intro e he
      have := hb e (List.mem_cons_of_mem _ he)
      simpa [List.length_set] using this
    obtain ⟨r, hr, hrlen, hmul⟩ :=
      ih (acc.set (io - 1).toNat (some (input.getD (sn - 1).toNat default))) hb'
        ((List.nodup_cons.mp hnd).2)
    have hmapeq : rest.map
        (fun e => (acc.set (io - 1).toNat (some (input.getD (sn - 1).toNat default))).getD (e.2 - 1).toNat none) =
        rest.map (fun e => acc.getD (e.2 - 1).toNat none) := by
      apply List.map_congr_left
      intro e he
      have hne2 : e.2 ≠ io := by
        intro hcontra
        exact hio_notin (hcontra ▸ List.mem_map_of_mem Prod.snd he)
      have hbe := hb e (List.mem_cons_of_mem _ he)
      exact getD_set_ne _ _ _ (by omega) _ _
    rw [hmapeq] at hmul
    refine ⟨r, hstep ▸ hr, by simpa [List.length_set] using hrlen, ?_⟩
    have hsetmul := toMultiset_set acc (io - 1).toNat hjlt
      (some (input.getD (sn - 1).toNat default)) none
    simp only [List.map_cons, ← Multiset.cons_coe]
    calc (r : Multiset (Option α)) +
          (acc.getD (io - 1).toNat none ::ₘ ↑(rest.map (fun e => acc.getD (e.2 - 1).toNat none)))
        = (acc.getD (io - 1).toNat none) ::ₘ
            ((r : Multiset (Option α)) + ↑(rest.map (fun e => acc.getD (e.2 - 1).toNat none))) := by
          rw [add_comm, Multiset.cons_add, add_comm]
      _ = (acc.getD (io - 1).toNat none) ::ₘ
            (((acc.set (io - 1).toNat (some (input.getD (sn - 1).toNat default)) : List (Option α)) : Multiset (Option α)) +
              ↑(rest.map (fun e => some (input.getD (e.1 - 1).toNat default)))) := by
          rw [hmul]
      _ = (((acc.set (io - 1).toNat (some (input.getD (sn - 1).toNat default)) : List (Option α)) : Multiset (Option α)) +
            {acc.getD (io - 1).toNat none}) +
              ↑(rest.map (fun e => some (input.getD (e.1 - 1).toNat default))) := by
          rw [add_comm _ ({acc.getD (io - 1).toNat none} : Multiset (Option α)),
            Multiset.singleton_add, Multiset.cons_add]
      _ = ((acc : Multiset (Option α)) + {some (input.getD (sn - 1).toNat default)}) +
            ↑(rest.map (fun e => some (input.getD (e.1 - 1).toNat default))) := by
          rw [hsetmul]
      _ = (acc : Multiset (Option α)) +
            (some (input.getD (sn - 1).toNat default) ::ₘ
              ↑(rest.map (fun e => some (input.getD (e.1 - 1).toNat default)))) := by
          rw [add_assoc, Multiset.singleton_add]

/-- The integers `1..n`, the suggestion numbers and importance orders the
model's sort-order answer is supposed to range over. -/
def oneToN (n : Nat) : List Int :=
  (List.range' 1 n).map (fun k : Nat => (k : Int))

/-- Membership in `1..n` is the expected interval. -/
theorem mem_oneToN {n : Nat} {z : Int} : z ∈ oneToN n ↔ 1 ≤ z ∧ z ≤ (n : Int) := by
  constructor
  · intro h
    obtain ⟨k, hk, rfl⟩ := List.mem_map.mp h
    rw [List.mem_range'_1] at hk
    omega
  · intro hz
    refine List.mem_map.mpr ⟨z.toNat, ?_, by omega⟩
    rw [List.mem_range'_1]
    omega

/-- The list `1..n` has no duplicates. -/
theorem nodup_oneToN (n : Nat) : (oneToN n).Nodup :=
  (List.nodup_range' 1 n).map Nat.cast_injective

/-- The list `1..n` has `n` entries. -/
theorem length_oneToN (n : Nat) : (oneToN n).length = n := by
  rw [oneToN, List.length_map, List.length_range']

/-- Reading every position of a list in order reproduces the list. -/
theorem range_map_getD {α : Type} [Inhabited α] (l : List α) :
    (List.range l.length).map (fun j => some (l.getD j default)) = l.map some := by
  induction l with
  | nil => rfl
  | cons a t ih =>
    have htail : List.map ((fun j => some ((a :: t).getD j default)) ∘ Nat.succ)
        (List.range t.length) = List.map (fun j => some (t.getD j default)) (List.range t.length) :=
      List.map_congr_left (fun j _ => by simp [Function.comp, List.getD_cons_succ])
    rw [List.length_cons, List.range_succ_eq_map, List.map_cons, List.map_map,
      List.getD_cons_zero, htail, ih, List.map_cons]

/-- Reading positions `1..n` of an `n`-list, 1-based, reproduces the list. -/
theorem oneToN_map_getD {α : Type} [Inhabited α] (l : List α) :
    (oneToN l.length).map (fun sn => some (l.getD (sn - 1).toNat default)) = l.map some := by
  unfold oneToN
  rw [List.map_map, List.range'_eq_map_range, List.map_map]
  calc List.map ((fun sn : Int => some (l.getD (sn - 1).toNat default)) ∘
        (fun k : Nat => (k : Int)) ∘ (fun x => 1 + x)) (List.range l.length)
      = List.map (fun j => some (l.getD j default)) (List.range l.length) := by
        apply List.map_congr_left
        intro j _
        simp only [Function.comp_apply]
        have hj : (((1 + j : Nat) : Int) - 1).toNat = j := by omega
        rw [hj]
    _ = l.map some := range_map_getD l

/-- Claim C8: when ranking succeeds and the model's sort-order response
assigns each suggestion number `1..n` exactly once to importance orders
forming a permutation of `1..n`, the list built by the assignment loop —
the ranked list before any clipping — is a permutation of the `n` input
suggestions: it holds exactly the input records, each exactly once (under
the `some` injection of the placeholder-carrying element type), and the
(immutable) input list itself is untouched. -/
theorem rank_sort_order_is_permutation {α : Type} [Inhabited α] (input : List α)
    (entries : List (Int × Int))
    (hsn : (entries.map Prod.fst).Perm (oneToN input.length))
    (hio : (entries.map Prod.snd).Perm (oneToN input.length)) :
    ∃ ranked, applySortEntries input entries (List.replicate input.length none) = .ok ranked ∧
      ranked.Perm (input.map some) := by
  have hlen_entries : entries.length = input.length := by
    have h := hsn.length_eq
    rw [List.length_map, length_oneToN] at h
    exact h
  have hb : ∀ e ∈ entries, 1 ≤ e.1 ∧ e.1 ≤ (input.length : Int) ∧ 1 ≤ e.2 ∧
      e.2 ≤ ((List.replicate input.length (none : Option α)).length : Int) := by
    intro e he
    have hf : e.1 ∈ oneToN input.length :=
      hsn.mem_iff.mp (List.mem_map_of_mem Prod.fst he)
    have hs : e.2 ∈ oneToN input.length :=
      hio.mem_iff.mp (List.mem_map_of_mem Prod.snd he)
    obtain ⟨ha, hb'⟩ := mem_oneToN.mp hf
    obtain ⟨hc, hd⟩ := mem_oneToN.mp hs
    simp only [List.length_replicate]
    exact ⟨ha, hb', hc, hd⟩
  have hnd : (entries.map Prod.snd).Nodup := hio.nodup_iff.mpr (nodup_oneToN _)
  obtain ⟨r, hr, hrlen, hmul⟩ :=
    applySortEntries_spec input entries (List.replicate input.length none) hb hnd
  refine ⟨r, hr, ?_⟩
  have hrepl : entries.map
      (fun e => (List.replicate input.length (none : Option α)).getD (e.2 - 1).toNat none) =
      List.replicate entries.length (none : Option α) := by
    rw [List.eq_replicate_iff]
    refine ⟨by simp, ?_⟩
    intro b hbm
    obtain ⟨e, _, rfl⟩ := List.mem_map.mp hbm
    cases hlt : Nat.decLt (e.2 - 1).toNat input.length with
    | isTrue h => simp [List.getD_eq_getElem?_getD]
    | isFalse h => simp [List.getD_eq_getElem?_getD]
  rw [hrepl, hlen_entries] at hmul
  have hcancel : (r : Multiset (Option α)) =
      ↑(entries.map (fun e => some (input.getD (e.1 - 1).toNat default))) := by
    have h := hmul
    rw [add_comm ((List.replicate input.length (none : Option α) : List (Option α)) : Multiset (Option α))] at h
    exact add_right_cancel h
  have hperm1 : r.Perm (entries.map (fun e => some (input.getD (e.1 - 1).toNat default))) :=
    Multiset.coe_eq_coe.mp hcancel
  have hmapcomp : entries.map (fun e => some (input.getD (e.1 - 1).toNat default)) =
      (entries.map Prod.fst).map (fun sn => some (input.getD (sn - 1).toNat default)) := by
    rw [List.map_map]
    rfl
  have hperm2 : ((entries.map Prod.fst).map
      (fun sn => some (input.getD (sn - 1).toNat default))).Perm
        ((oneToN input.length).map (fun sn => some (input.getD (sn - 1).toNat default))) :=
    hsn.map _
  refine hperm1.trans ?_
  rw [hmapcomp]
  exact hperm2.trans (by rw [oneToN_map_getD input])

/-- Witness for claim C8: a two-entry sort order swapping the two
suggestions yields a permutation of the input. -/
theorem rank_sort_order_is_permutation_witness :
    ∃ ranked, applySortEntries ([10, 20] : List Nat) [(1, 2), (2, 1)]
      (List.replicate ([10, 20] : List Nat).length none) = .ok ranked ∧
      ranked.Perm (([10, 20] : List Nat).map some) :=
  rank_sort_order_is_permutation [10, 20] [(1, 2), (2, 1)] (by decide) (by decide)

/-! ### Claim C10 -/

/-- Every keepends line is non-empty. -/
theorem splitKeepends_ne_nil : ∀ (cs cur : List Char), ∀ l ∈ splitKeependsAux cs cur, l ≠ [] := by
  intro cs
  induction cs with
  | nil =>
    intro cur l hl
    unfold splitKeependsAux at hl
    by_cases hcur : cur = []
    · simp [hcur] at hl
    · rw [if_neg hcur] at hl
      simp only [List.mem_singleton] at hl
      subst hl
      simpa using hcur
  | cons c rest ih =>
    intro cur l hl
    unfold splitKeependsAux at hl
    by_cases hc : c = '\n'
    · rw [if_pos hc] at hl
      rcases List.mem_cons.mp hl with rfl | hl
      · simp
      · exact ih [] l hl
    · rw [if_neg hc] at hl
      exact ih (c :: cur) l hl

/-- Every keepends line except the last ends with a newline. -/
theorem splitKeepends_ends : ∀ (cs cur : List Char),
    ∀ l ∈ (splitKeependsAux cs cur).dropLast, l.getLast? = some '\n' := by
  intro cs
  induction cs with
  | nil =>
    intro cur l hl
    unfold splitKeependsAux at hl
    by_cases hcur : cur = []
    · simp [hcur] at hl
    · rw [if_neg hcur] at hl
      simp at hl
  | cons c rest ih =>
    intro cur l hl
    unfold splitKeependsAux at hl
    by_cases hc : c = '\n'
    · rw [if_pos hc] at hl
      cases haux : splitKeependsAux rest [] with
      | nil => rw [haux] at hl; simp at hl
      | cons m t =>
        rw [haux, List.dropLast_cons_of_ne_nil (by simp)] at hl
        rcases List.mem_cons.mp hl with rfl | hl
        · exact List.getLast?_concat _
        · exact ih [] l (by rw [haux]; exact hl)
    · rw [if_neg hc] at hl
      exact ih (c :: cur) l hl

/-- Trailing-newline stripping only looks at the stripped tail of the
second summand. -/
theorem dropTrailingNLs_append (p u : List Char) :
    dropTrailingNLs (p ++ u) = dropTrailingNLs (p ++ dropTrailingNLs u) := by
  unfold dropTrailingNLs
  rw [List.reverse_append, List.reverse_append, List.reverse_reverse,
    List.dropWhile_append, List.dropWhile_append, List.dropWhile_idempotent]

/-- Dropping the single terminating newline does not change the
trailing-newline-stripped value. -/
theorem dropTrailingNLs_dropOneNL (l : List Char) :
    dropTrailingNLs (dropOneNL l) = dropTrailingNLs l := by
  unfold dropOneNL
  by_cases h : l.getLast? = some '\n'
  · obtain ⟨m, rfl⟩ := List.getLast?_eq_some_iff.mp h
    rw [if_pos h, List.dropLast_concat]
    unfold dropTrailingNLs
    rw [List.reverse_append]
    simp [List.dropWhile_cons]
  · rw [if_neg h]

/-- Joining a keepends line list by flattening or by re-joining the
terminator-stripped lines with explicit newlines agrees up to trailing
newlines. -/
theorem joinlines_flatten : ∀ (L : List (List Char)),
    (∀ l ∈ L, l ≠ []) →
    (∀ l ∈ L.dropLast, l.getLast? = some '\n') →
    dropTrailingNLs L.flatten = dropTrailingNLs (joinlines (L.map dropOneNL)) := by
  intro L
  induction L with
  | nil => intro _ _; rfl
  | cons l L' ih =>
    intro hne hends
    cases L' with
    | nil =>
      simp only [List.flatten, List.map, joinlines, List.flatten_nil, List.append_nil]
      exact (dropTrailingNLs_dropOneNL l).symm
    | cons l' t =>
      have hlast : l.getLast? = some '\n' :=
        hends l (by rw [List.dropLast_cons_of_ne_nil (by simp)]; exact List.mem_cons_self _ _)
      obtain ⟨m, rfl⟩ := List.getLast?_eq_some_iff.mp hlast
      have hone : dropOneNL (m ++ ['\n']) = m := by
        unfold dropOneNL
        rw [if_pos (List.getLast?_concat _), List.dropLast_concat]
      have hrest := ih (fun x hx => hne x (List.mem_cons_of_mem _ hx))
        (fun x hx => hends x (by
          rw [List.dropLast_cons_of_ne_nil (by simp)]
          exact List.mem_cons_of_mem _ hx))
      have hjoin : joinlines (((m ++ ['\n']) :: l' :: t).map dropOneNL) =
          m ++ '\n' :: joinlines ((l' :: t).map dropOneNL) := by
        rw [List.map_cons, hone]
        rfl
      rw [List.flatten_cons, hjoin, dropTrailingNLs_append (m ++ ['\n']) ((l' :: t).flatten),
        hrest, ← dropTrailingNLs_append]
      congr 1
      simp

/-- Prefixing a line does not touch the terminating newline. -/
theorem getLast?_indentLineIf (pre : List Char) (l : List Char) (hne : l ≠ []) :
    (indentLineIf pre l).getLast? = l.getLast? := by
  unfold indentLineIf
  by_cases h : hasNonWS l
  · rw [if_pos h, List.getLast?_append_of_ne_nil _ hne]
  · rw [if_neg h]

/-- Dropping the terminating newline does not change whether a line holds a
non-whitespace character. -/
theorem hasNonWS_dropOneNL (l : List Char) : hasNonWS (dropOneNL l) = hasNonWS l := by
  unfold dropOneNL
  by_cases h : l.getLast? = some '\n'
  · obtain ⟨m, rfl⟩ := List.getLast?_eq_some_iff.mp h
    rw [if_pos h, List.dropLast_concat]
    unfold hasNonWS
    rw [List.any_append]
    simp [pyIsSpace]
  · rw [if_neg h]

/-- On non-empty lines, prefixing commutes with dropping the terminating
newline. -/
theorem dropOneNL_indentLineIf (pre : List Char) (l : List Char) (hne : l ≠ []) :
    dropOneNL (indentLineIf pre l) = indentLineIf pre (dropOneNL l) := by
  unfold indentLineIf
  rw [hasNonWS_dropOneNL]
  by_cases h : hasNonWS l
  · rw [if_pos h, if_pos h]
    unfold dropOneNL
    rw [List.getLast?_append_of_ne_nil _ hne]
    by_cases hl : l.getLast? = some '\n'
    · obtain ⟨m, rfl⟩ := List.getLast?_eq_some_iff.mp hl
      rw [if_pos hl, if_pos hl, List.dropLast_concat, ← List.append_assoc, List.dropLast_concat]
    · rw [if_neg hl, if_neg hl]
  · rw [if_neg h, if_neg h]

/-- The amended transform of claim C10: split the snippet into lines,
prefix every line containing a non-whitespace character with `delta`
spaces (whitespace-only lines are left as they are), re-join with
newlines, and strip trailing newlines. -/
def indentAllNonWSLines (delta : Nat) (s : String) : String :=
  String.mk (dropTrailingNLs (joinlines ((pySplitlinesChars s.toList).map
    (indentLineIf (List.replicate delta ' ')))))

/-- The transform claim C10 literally asks for: every line prefixed with
`delta` spaces, re-joined, trailing newlines stripped. -/
def indentAllLines (delta : Nat) (s : String) : String :=
  String.mk (dropTrailingNLs (joinlines ((pySplitlinesChars s.toList).map
    (fun l => List.replicate delta ' ' ++ l))))

/-- Python's `textwrap.indent` followed by `rstrip('\n')` equals the line-wise
re-joining transform: prefix exactly the lines holding a non-whitespace
character, join with newlines, strip trailing newlines. -/
theorem rstrip_textwrapIndent_eq (pre : List Char) (cs : List Char) :
    dropTrailingNLs (textwrapIndentChars pre cs) =
      dropTrailingNLs (joinlines ((pySplitlinesChars cs).map (indentLineIf pre))) := by
  unfold textwrapIndentChars pySplitlinesChars
  have hne : ∀ l ∈ (linesOf cs).map (indentLineIf pre), l ≠ [] := by
    intro l hl
    obtain ⟨l0, hl0, rfl⟩ := List.mem_map.mp hl
    have h0 : l0 ≠ [] := splitKeepends_ne_nil cs [] l0 hl0
    unfold indentLineIf
    by_cases h : hasNonWS l0
    · rw [if_pos h]
      intro hcontra
      exact h0 (List.append_eq_nil.mp hcontra).2
    · rw [if_neg h]
      exact h0
  have hends : ∀ l ∈ ((linesOf cs).map (indentLineIf pre)).dropLast, l.getLast? = some '\n' := by
    intro l hl
    rw [← List.map_dropLast] at hl
    obtain ⟨l0, hl0, rfl⟩ := List.mem_map.mp hl
    rw [getLast?_indentLineIf pre l0
      (splitKeepends_ne_nil cs [] l0 (List.mem_of_mem_dropLast hl0))]
    exact splitKeepends_ends cs [] l0 hl0
  rw [joinlines_flatten ((linesOf cs).map (indentLineIf pre)) hne hends]
  congr 1
  congr 1
  rw [List.map_map, List.map_map]
  apply List.map_congr_left
  intro l0 hl0
  exact dropOneNL_indentLineIf pre l0 (splitKeepends_ne_nil cs [] l0 hl0)

/-- Reading the head of a non-empty Python list succeeds. -/
theorem pyGet_zero {α : Type} [Inhabited α] (a : α) (l : List α) :
    pyGet (a :: l) 0 = .ok a := by
  unfold pyGet pyIdx
  rw [if_pos ⟨le_refl 0, by rw [List.length_cons]; omega⟩]
  simp

/-- Claim C10 (amended): `dedent_code` never raises, and its value is fully
characterised: when looking up the original line fails (no matching file,
out-of-range line, empty snippet) or the line is empty, or the computed
indentation delta — leading whitespace of the original line minus leading
whitespace of the snippet's first line — is not strictly positive, the
snippet is returned unchanged; otherwise the result is the snippet with
every line containing a non-whitespace character prefixed by exactly delta
spaces (whitespace-only lines are left untouched, as `textwrap.indent`
skips them) and trailing newlines stripped — indentation is only ever
added, never removed. -/
theorem dedent_code_spec (files : List FileDiff) (rf : String) (start : Int)
    (snippet : String) :
    dedent_code files rf start snippet =
      match findOriginalLine files rf start with
      | .error _ => snippet
      | .ok none => snippet
      | .ok (some orig) =>
        if orig = "" then snippet
        else
          match pySplitlines snippet with
          | [] => snippet
          | first :: _ =>
            if 0 < (leadingWS orig : Int) - (leadingWS first : Int) then
              indentAllNonWSLines ((leadingWS orig : Int) - (leadingWS first : Int)).toNat snippet
            else snippet := by
  unfold dedent_code
  cases hfo : findOriginalLine files rf start with
  | error e => simp
  | ok oo =>
    cases oo with
    | none => simp
    | some orig =>
      by_cases horig : orig = ""
      · simp [horig]
      · simp only [except_ok_bind, if_pos horig]
        cases hsplit : pySplitlines snippet with
        | nil => simp [pyGet, pyIdx]
        | cons first rest =>
          rw [pyGet_zero, except_ok_bind]
          by_cases hdelta : 0 < (leadingWS orig : Int) - (leadingWS first : Int)
          · simp only [if_neg horig, if_pos hdelta, except_pure_eq]
            show String.mk (dropTrailingNLs (textwrapIndentChars _ _)) = _
            rw [rstrip_textwrapIndent_eq]
            rfl
          · simp only [if_neg horig, if_neg hdelta, except_pure_eq]

/-- Claim C10 counterexample: at a successful lookup with positive delta 4,
the snippet `"y\n\nz"` comes back from `dedent_code` with its empty middle
line untouched, which differs from the claim's "every line prefixed by
exactly delta spaces". -/
theorem dedent_code_cex :
    dedent_code [⟨"a.py", "    x\nfoo"⟩] "a.py" 1 "y\n\nz" = "    y\n\n    z" ∧
    findOriginalLine [⟨"a.py", "    x\nfoo"⟩] "a.py" 1 = .ok (some "    x") ∧
    (leadingWS "    x" : Int) - (leadingWS "y" : Int) = 4 ∧
    indentAllLines 4 "y\n\nz" = "    y\n    \n    z" ∧
    ("    y\n\n    z" : String) ≠ "    y\n    \n    z" := by
  refine ⟨by decide, by decide, by decide, by decide, by decide⟩

end PrAgent
